import Mathlib

/-!
Verification of the SQL query viewer's state-management and rendering layer.

The definitions below are shallow embeddings of the TypeScript source:
* the tab registry store (`createQueryTabsStore` in `src/lib/stores.svelte.ts`),
* the query results store (`createQueryResultsStore` in the same file),
* the pagination and cell-formatting logic of the results panel component,
* the query-filtering, CSV export and CSV parse utilities (`src/lib/utils`).

JavaScript strings are modelled as Lean `String`s (operated on through their
character lists so that everything kernel-evaluates), JS `Map` as an ordered
association list, and the opaque unique ids produced by `generateId()` as
natural numbers drawn from a monotone counter.
-/

namespace SQLViewer

/-! ### Generic character utilities (models of JS string built-ins) -/

/-- Model of the JS whitespace class used by `String.prototype.trim`. -/
def isWS (c : Char) : Bool := c.isWhitespace

/-- Model of JS `String.prototype.trim` on character lists. -/
def jsTrimChars (cs : List Char) : List Char :=
  ((cs.dropWhile isWS).reverse.dropWhile isWS).reverse

/-- Model of JS `String.prototype.trim`. -/
def jsTrim (s : String) : String := String.mk (jsTrimChars s.toList)

/-- Whether the pattern (first argument) occurs at the head of the text. -/
def startsWithChars : List Char → List Char → Bool
  | [], _ => true
  | _ :: _, [] => false
  | p :: ps, c :: cs => p == c && startsWithChars ps cs

/-- Model of JS `String.prototype.includes`: the needle occurs somewhere in the text. -/
def containsChars (needle : List Char) : List Char → Bool
  | [] => needle.isEmpty
  | c :: rest => startsWithChars needle (c :: rest) || containsChars needle rest

/-- Value of a nonempty digit string, as read by JS `parseInt`. -/
def digitsToNat (ds : List Char) : Nat :=
  ds.foldl (fun n c => n * 10 + (c.toNat - 48)) 0

/-- The single-quote character (written via its code point). -/
def squote : Char := Char.ofNat 39

/-! ### Tab registry (`createQueryTabsStore`, src/src/lib/stores.svelte.ts)

`generateId()` returns a fresh opaque string id on every call; we model ids
as naturals handed out by the `nextId` counter of the state, which captures
exactly the freshness guarantee the implementation relies on. -/

structure QueryTab where
  id : Nat
  name : String
  query : String
  isActive : Bool
  isSaved : Bool
  hasChanges : Bool
deriving DecidableEq, Repr

structure TabsState where
  tabs : List QueryTab
  /-- The `activeTabId` string state; `none` models the initial empty string. -/
  activeTabId : Option Nat
  /-- Id-freshness counter modelling `generateId()`. -/
  nextId : Nat
deriving DecidableEq, Repr

/-- `setActiveTab(tabId)`: sets `isActive` on every tab by comparing its id with
the argument, and repoints `activeTabId` (lines 115-119 of stores.svelte.ts). -/
def setActiveTab (s : TabsState) (tabId : Nat) : TabsState :=
  { s with
    tabs := s.tabs.map fun t => { t with isActive := t.id == tabId }
    activeTabId := some tabId }

/-- `createTab(name?, initialQuery?)`: appends a fresh tab, then activates it
(lines 71-86). Returns the new state together with the new id. -/
def createTab (s : TabsState) (name? initialQuery? : Option String) :
    TabsState × Nat :=
  let id := s.nextId
  let newTab : QueryTab :=
    { id := id
      name := name?.getD ("Query " ++ toString (s.tabs.length + 1))
      query := initialQuery?.getD ""
      isActive := false
      isSaved := false
      hasChanges := false }
  let s1 := { s with tabs := s.tabs ++ [newTab], nextId := s.nextId + 1 }
  (setActiveTab s1 id, id)

/-- `createDefaultTab()` (lines 179-182). -/
def createDefaultTab (s : TabsState) : TabsState × Nat :=
  createTab s (some "Sample Query") (some "SELECT * FROM orders LIMIT 20")

/-- `closeTab(tabId)` (lines 124-140): removes the tab; if it was active and
others remain, activates the tab at `min(closedIndex, remaining-1)`; if the
list became empty, creates a default tab. -/
def closeTab (s : TabsState) (tabId : Nat) : TabsState :=
  match s.tabs.findIdx? (fun t => t.id == tabId) with
  | none => s
  | some tabIndex =>
    let wasActive := ((s.tabs.get? tabIndex).map (fun t => t.isActive)).getD false
    let remaining := s.tabs.filter (fun t => t.id != tabId)
    let s1 := { s with tabs := remaining }
    if wasActive = true ∧ remaining.length > 0 then
      match remaining.get? (min tabIndex (remaining.length - 1)) with
      | some t => setActiveTab s1 t.id
      | none => s1
    else if remaining.length = 0 then (createDefaultTab s1).1
    else s1

/-- The client-side initialization of the tab store (lines 29-57), with the
storage reads passed in as arguments: `savedTabs` is the persisted tab list and
`savedActiveId` the persisted active id (`none` models the falsy empty string).
If tabs already exist (SSR pre-seeding) and storage holds a nonempty list, both
the tab list and the active id are replaced from storage; if storage is empty
nothing changes. From an empty registry, empty storage seeds one default tab. -/
def initTabs (s : TabsState) (savedTabs : List QueryTab)
    (savedActiveId : Option Nat) : TabsState :=
  if s.tabs.length > 0 then
    if savedTabs.length > 0 then
      { s with
        tabs := savedTabs
        activeTabId :=
          match savedActiveId with
          | some a => some a
          | none => savedTabs.head?.map (fun t => t.id) }
    else s
  else
    if savedTabs.length = 0 then
      (createTab s (some "Sample Query") (some "SELECT * FROM orders LIMIT 20")).1
    else
      { s with
        tabs := savedTabs
        activeTabId :=
          match savedActiveId with
          | some a => some a
          | none => savedTabs.head?.map (fun t => t.id) }

/-- Operations of the tab registry quantified over by the invariant claims. -/
inductive TabOp where
  | create (name? initialQuery? : Option String)
  | setActive (id : Nat)
  | close (id : Nat)
deriving DecidableEq, Repr

def applyOp (s : TabsState) : TabOp → TabsState
  | .create n q => (createTab s n q).1
  | .setActive i => setActiveTab s i
  | .close i => closeTab s i

def runOps (s : TabsState) (ops : List TabOp) : TabsState :=
  ops.foldl applyOp s

/-- Every `setActive` in the sequence names an id present in the registry at
the moment it runs. -/
def validOps : TabsState → List TabOp → Bool
  | _, [] => true
  | s, op :: ops =>
    (match op with
     | .setActive i => (s.tabs.map (fun t => t.id)).contains i
     | _ => true) && validOps (applyOp s op) ops

/-- Number of tabs carrying the active flag. -/
def countActive (s : TabsState) : Nat := s.tabs.countP (fun t => t.isActive)

/-- Structural well-formedness of the registry: distinct ids, all of them
below the freshness counter. -/
abbrev TabsInv0 (s : TabsState) : Prop :=
  (s.tabs.map (fun t => t.id)).Nodup ∧ ∀ t ∈ s.tabs, t.id < s.nextId

/-- Registry well-formedness: structurally well-formed, and the active flags
are exactly the characteristic function of the active-id pointer, which
references a present tab. This holds after initialization. -/
abbrev TabsInv (s : TabsState) : Prop :=
  TabsInv0 s ∧
  ∃ t ∈ s.tabs, s.activeTabId = some t.id ∧
    ∀ u ∈ s.tabs, u.isActive = (u.id == t.id)

/-! ### Query results store (`createQueryResultsStore`, src/src/lib/stores.svelte.ts) -/

/-- A row of tabular data. The rows the application actually stores come from
the CSV loader (string-valued records) or the mock generators; string values
are the ones every claim exercises. -/
abbrev CsvRow := List (String × String)

inductive QueryStatus where
  | success
  | error
  | pending
deriving DecidableEq, Repr

structure QueryResult where
  id : String
  name : String
  query : String
  data : List CsvRow
  executionTime : ℚ
  rowCount : Nat
  status : QueryStatus
  timestamp : Nat
deriving DecidableEq, Repr

/-- Model of `Map.prototype.set`: update in place if the key exists (keeping
its position), otherwise append. -/
def setEntry (m : List (String × QueryResult)) (k : String) (v : QueryResult) :
    List (String × QueryResult) :=
  if (m.lookup k).isSome then
    m.map (fun p => if p.1 = k then (k, v) else p)
  else m ++ [(k, v)]

/-- Model of `Map.prototype.delete`. -/
def deleteEntry (m : List (String × QueryResult)) (k : String) :
    List (String × QueryResult) :=
  m.filter (fun p => p.1 ≠ k)

structure ResultsState where
  results : List (String × QueryResult)
  isExecuting : Bool
  currentQueryId : String
  currentResult : Option QueryResult
  /-- The last value written to the `query-results` storage key by
  `saveToStorage()` (i.e. `Array.from(results.entries())`). -/
  persisted : List (String × QueryResult)
deriving DecidableEq, Repr

/-- `executeQuery(tabId, query)` of the results store (lines 268-302).
The asynchronous call into the execution service is abstracted by `outcome`:
`some r` when `utilExecuteQuery` resolves with `r`, `none` when anything inside
the `try` block throws. The `generateId()` and `new Date()` of the catch
branch are the `errId`/`errTimestamp` arguments. A blank query is a guarded
no-op. On success the new map is persisted; the catch branch stores and
repoints without persisting; the `finally` clears the flag and marker. -/
def executeQuery (s : ResultsState) (tabId query : String)
    (outcome : Option QueryResult) (errId : String) (errTimestamp : Nat) :
    ResultsState :=
  if (jsTrimChars query.toList).isEmpty then s
  else
    match outcome with
    | some result =>
      { results := setEntry s.results tabId result
        isExecuting := false
        currentQueryId := ""
        currentResult := some result
        persisted := setEntry s.results tabId result }
    | none =>
      let errorResult : QueryResult :=
        { id := errId
          name := "Error"
          query := query
          data := []
          executionTime := 0
          rowCount := 0
          status := .error
          timestamp := errTimestamp }
      { results := setEntry s.results tabId errorResult
        isExecuting := false
        currentQueryId := ""
        currentResult := some errorResult
        persisted := s.persisted }

/-- `clearResult(tabId)` (lines 304-308): deletes the entry and persists. -/
def clearResult (s : ResultsState) (tabId : String) : ResultsState :=
  { s with
    results := deleteEntry s.results tabId
    persisted := deleteEntry s.results tabId }

/-- `clearAllResults()` (lines 310-314): clears the map and persists. -/
def clearAllResults (s : ResultsState) : ResultsState :=
  { s with results := [], persisted := [] }

/-- `setCurrentResult(result)` (lines 258-260). -/
def setCurrentResult (s : ResultsState) (result : Option QueryResult) :
    ResultsState :=
  { s with currentResult := result }

/-! ### Pagination (ResultsPanel component, derived values and `goToPage`) -/

/-- `totalPages = Math.ceil(data.length / rowsPerPage)`. -/
def totalPages (rowCount pageSize : Nat) : Nat :=
  (rowCount + pageSize - 1) / pageSize

/-- `startIndex = (currentPage - 1) * rowsPerPage`. -/
def startIndex (page pageSize : Nat) : Nat := (page - 1) * pageSize

/-- `endIndex = Math.min(startIndex + rowsPerPage, data.length)`. -/
def endIndex (page pageSize rowCount : Nat) : Nat :=
  min (startIndex page pageSize + pageSize) rowCount

/-- `paginatedData = data.slice(startIndex, endIndex)`. -/
def paginatedData {α : Type} (data : List α) (page pageSize : Nat) : List α :=
  (data.drop (startIndex page pageSize)).take
    (endIndex page pageSize data.length - startIndex page pageSize)

/-- `goToPage(page)`: `currentPage = Math.max(1, Math.min(page, totalPages))`. -/
def goToPage (page total : Nat) : Nat := max 1 (min page total)

/-! ### Cell formatting and classification (ResultsPanel component) -/

/-- The JS values a result cell can hold. `obj` carries its JSON rendering
(`JSON.stringify` is a browser built-in, abstracted as the stored text); the
claims only exercise the scalar constructors. Numbers are modelled as the
integers, which covers every numeric value appearing in the claims. -/
inductive JSValue where
  | null
  | undefined
  | bool (b : Bool)
  | num (n : Int)
  | str (s : String)
  | obj (jsonRepr : String)
deriving DecidableEq, Repr

/-- Inserts a separator after every third character of a reversed digit list. -/
def groupRev : List Char → List Char
  | a :: b :: c :: d :: rest => a :: b :: c :: ',' :: groupRev (d :: rest)
  | l => l

/-- Model of `Number.prototype.toLocaleString` on integers: digits grouped in
threes with comma separators (the en-US default grouping). -/
def toLocaleStringInt (n : Int) : String :=
  String.mk ((if n < 0 then ['-'] else []) ++
    (groupRev (toString n.natAbs).toList.reverse).reverse)

/-- `formatCellValue(value)` (ResultsPanel, lines 51-82). -/
def formatCellValue : JSValue → String
  | .null => ""
  | .undefined => ""
  | .bool b => if b then "true" else "false"
  | .num n => if 1000 ≤ n.natAbs then toLocaleStringInt n else toString n
  | .str s =>
    if s.toList.length > 100 then String.mk (s.toList.take 97) ++ "..." else s
  | .obj j => j

/-- The test `/^\d{4}-\d{2}-\d{2}/.test(value)`. -/
def matchesDateStart (s : String) : Bool :=
  match s.toList with
  | a :: b :: c :: d :: e :: f :: g :: h :: i :: j :: _ =>
    a.isDigit && b.isDigit && c.isDigit && d.isDigit && e == '-' &&
    f.isDigit && g.isDigit && h == '-' && i.isDigit && j.isDigit
  | _ => false

/-- `getCellClass(value)` (ResultsPanel, lines 87-113). -/
def getCellClass : JSValue → String
  | .null => "cell-null"
  | .undefined => "cell-null"
  | .num _ => "cell-number"
  | .bool _ => "cell-boolean"
  | .str s =>
    if matchesDateStart s then "cell-date"
    else if s.toList.contains '@' && s.toList.contains '.' then "cell-email"
    else "cell-string"
  | .obj _ => "cell-object"

/-! ### Query filtering (`applyQueryFiltering`, src/lib/utils, lines 173-210)

The three regular expressions the function runs over the lowercased query
(`/limit\s+(\d+)/`, `/shipcountry\s*=\s*['"]([^'"]+)['"]/`,
`/freight\s*>\s*(\d+)/`) are embedded as leftmost-match scanners. -/

/-- Match of `limit\s+(\d+)` anchored at the head of the text. -/
def matchLimitAt (cs : List Char) : Option Nat :=
  if startsWithChars "limit".toList cs then
    let rest := cs.drop 5
    if (rest.takeWhile isWS).isEmpty then none
    else
      let ds := (rest.dropWhile isWS).takeWhile Char.isDigit
      if ds.isEmpty then none else some (digitsToNat ds)
  else none

/-- First match of `limit\s+(\d+)`, as `String.prototype.match` finds it. -/
def findLimit : List Char → Option Nat
  | [] => none
  | c :: rest =>
    match matchLimitAt (c :: rest) with
    | some n => some n
    | none => findLimit rest

/-- Whether a character is one of the two quote characters of the char class
`['"]`. -/
def isQuoteChar (c : Char) : Bool := c == squote || c == '"'

/-- Match of `shipcountry\s*=\s*['"]([^'"]+)['"]` anchored at the head;
returns the captured group. -/
def matchCountryAt (cs : List Char) : Option (List Char) :=
  if startsWithChars "shipcountry".toList cs then
    match (cs.drop 11).dropWhile isWS with
    | '=' :: r2 =>
      match r2.dropWhile isWS with
      | q :: r4 =>
        if isQuoteChar q then
          let content := r4.takeWhile (fun c => !isQuoteChar c)
          if content.isEmpty then none
          else
            match r4.dropWhile (fun c => !isQuoteChar c) with
            | _ :: _ => some content
            | [] => none
        else none
      | [] => none
    | _ => none
  else none

/-- First match of the `shipcountry` pattern. -/
def findCountry : List Char → Option (List Char)
  | [] => none
  | c :: rest =>
    match matchCountryAt (c :: rest) with
    | some v => some v
    | none => findCountry rest

/-- Match of `freight\s*>\s*(\d+)` anchored at the head. -/
def matchFreightAt (cs : List Char) : Option Nat :=
  if startsWithChars "freight".toList cs then
    match (cs.drop 7).dropWhile isWS with
    | '>' :: r2 =>
      let ds := (r2.dropWhile isWS).takeWhile Char.isDigit
      if ds.isEmpty then none else some (digitsToNat ds)
    | _ => none
  else none

/-- First match of the `freight` pattern. -/
def findFreight : List Char → Option Nat
  | [] => none
  | c :: rest =>
    match matchFreightAt (c :: rest) with
    | some n => some n
    | none => findFreight rest

/-- Model of the JS built-in `parseFloat` on the decimal literals occurring in
the CSV data (optional sign, digits, optional fraction; `none` models `NaN`,
produced when no digits are readable). -/
def parseFloatQ (s : String) : Option ℚ :=
  let cs := s.toList.dropWhile isWS
  let p : ℚ × List Char :=
    match cs with
    | c :: rest =>
      if c == '-' then (-1, rest) else if c == '+' then (1, rest) else (1, cs)
    | [] => (1, [])
  let ids := p.2.takeWhile Char.isDigit
  let rest2 := p.2.dropWhile Char.isDigit
  let fds : List Char :=
    match rest2 with
    | '.' :: r => r.takeWhile Char.isDigit
    | _ => []
  if ids.isEmpty && fds.isEmpty then none
  else some (p.1 * ((digitsToNat ids : ℚ) + (digitsToNat fds : ℚ) / (10 : ℚ) ^ fds.length))

/-- The row predicate of the `shipCountry` filter:
`row.shipCountry && row.shipCountry.toLowerCase() === country.toLowerCase()`. -/
def shipCountryPred (country : List Char) (row : CsvRow) : Bool :=
  match row.lookup "shipCountry" with
  | some s =>
    !s.toList.isEmpty &&
      (s.toList.map Char.toLower) == (country.map Char.toLower)
  | none => false

/-- The row predicate of the `freight` filter:
`row.freight && parseFloat(row.freight) > threshold`. -/
def freightPred (threshold : Nat) (row : CsvRow) : Bool :=
  match row.lookup "freight" with
  | some s =>
    !s.toList.isEmpty &&
      (match parseFloatQ s with
       | some q => decide ((threshold : ℚ) < q)
       | none => false)
  | none => false

/-- `applyQueryFiltering(data, query)` (src/lib/utils, lines 173-210): LIMIT
truncation first, then the WHERE filters when the query mentions `where`,
then the hard 1000-row cap. -/
def applyQueryFiltering (data : List CsvRow) (query : String) : List CsvRow :=
  let lq := query.toList.map Char.toLower
  let d1 :=
    match findLimit lq with
    | some n => data.take n
    | none => data
  let d2 : List CsvRow :=
    if containsChars "where".toList lq then
      let d1a :=
        match findCountry lq with
        | some country => d1.filter (shipCountryPred country)
        | none => d1
      match findFreight lq with
      | some th => d1a.filter (freightPred th)
      | none => d1a
    else d1
  if d2.length > 1000 then d2.take 1000 else d2

/-! ### CSV export and parse (src/lib/utils: `exportToCSV` lines 324-357,
`parseCSV` lines 395-414, `parseCSVLine` lines 419-452) -/

/-- Model of `value.replace(/"/g, DOUBLEQUOTE-DOUBLEQUOTE)`: every quote doubled. -/
def escQ : List Char → List Char
  | [] => []
  | c :: rest => if c = '"' then '"' :: '"' :: escQ rest else c :: escQ rest

/-- The per-value quoting of `exportToCSV`: values containing a comma, quote
or newline are wrapped in quotes with inner quotes doubled. -/
def encodeCell (v : String) : String :=
  if v.toList.contains ',' || v.toList.contains '"' || v.toList.contains '\n' then
    String.mk ('"' :: (escQ v.toList ++ ['"']))
  else v

/-- Model of `Array.prototype.join(sep)` on character lists. -/
def joinChars (sep : List Char) : List (List Char) → List Char
  | [] => []
  | [l] => l
  | l :: ls => l ++ sep ++ joinChars sep ls

/-- The CSV text built by `exportToCSV(data)`: header row from the first row's
keys, then one comma-joined line per row, all joined by newlines. Missing keys
render as the empty string (the JS `Array.prototype.join` rendering of
`undefined`). `none` models the early return on empty data (no file is
produced); the DOM download of the produced text is not modelled. -/
def exportToCSV (data : List CsvRow) : Option String :=
  match data with
  | [] => none
  | first :: _ =>
    let headers := first.map Prod.fst
    let headerLine := joinChars [','] (headers.map String.toList)
    let rowLines := data.map (fun row =>
      joinChars [','] (headers.map
        (fun h => (encodeCell ((row.lookup h).getD "")).toList)))
    some (String.mk (joinChars ['\n'] (headerLine :: rowLines)))

/-- Model of `content.split(/\r?\n/)` (accumulator holds the current line
reversed). -/
def splitLinesAux (cur : List Char) : List Char → List (List Char)
  | [] => [cur.reverse]
  | c :: rest =>
    if c = '\n' then cur.reverse :: splitLinesAux [] rest
    else if c = '\r' ∧ rest.head? = some '\n' then
      cur.reverse :: splitLinesAux [] rest.tail
    else splitLinesAux (c :: cur) rest
termination_by cs => cs.length
decreasing_by
  · simp
  · simp; omega
  · simp

/-- `parseCSVLine(line)` (lines 419-452): character scan with an in-quotes
flag; doubled quotes inside quotes are literal quotes; commas outside quotes
separate fields; every field is trimmed as it is pushed. -/
def parseCSVLineAux (inQ : Bool) (cur : List Char) : List Char → List String
  | [] => [String.mk (jsTrimChars cur.reverse)]
  | c :: rest =>
    if c = '"' then
      if inQ = true ∧ rest.head? = some '"' then
        parseCSVLineAux inQ ('"' :: cur) rest.tail
      else parseCSVLineAux (!inQ) cur rest
    else if c = ',' ∧ inQ = false then
      String.mk (jsTrimChars cur.reverse) :: parseCSVLineAux inQ [] rest
    else parseCSVLineAux inQ (c :: cur) rest
termination_by cs => cs.length
decreasing_by
  · simp; omega
  · simp
  · simp
  · simp

def parseCSVLine (line : String) : List String :=
  parseCSVLineAux false [] line.toList

/-- `parseCSV(csvContent)` (lines 395-414): trim the whole content, split into
lines, parse the header line, and keep exactly the data lines whose field
count matches the header; each kept line becomes a record pairing headers with
values in order. -/
def parseCSV (csvContent : String) : List CsvRow :=
  match splitLinesAux [] (jsTrimChars csvContent.toList) with
  | [] => []
  | headerLine :: rest =>
    let headers := parseCSVLineAux false [] headerLine
    rest.filterMap (fun lineChars =>
      let values := parseCSVLineAux false [] lineChars
      if values.length = headers.length then some (headers.zip values) else none)

/-- A cell value that survives the export/parse round trip unchanged: it is
nonempty, holds no line-break character (CR or LF), and is unchanged by
whitespace trimming (the parser trims every field it reads). -/
def goodCell (v : String) : Bool :=
  !v.toList.isEmpty && !v.toList.contains '\n' && !v.toList.contains '\r' &&
    (jsTrimChars v.toList == v.toList)

/-- A column name that survives the round trip: a good cell value that
additionally holds no comma or quote (the header row is joined without the
per-value quoting applied to data cells). -/
def goodHeader (h : String) : Bool :=
  goodCell h && !h.toList.contains ',' && !h.toList.contains '"'

/-! ### Concrete states and inputs used by witnesses and counterexamples -/

/-- The registry produced by client-side initialization from an empty registry
and empty storage: one default tab, active. -/
def seededState : TabsState :=
  initTabs { tabs := [], activeTabId := none, nextId := 0 } [] none

/-- The single default tab held by `seededState`. -/
def seededTab : QueryTab :=
  { id := 0, name := "Sample Query", query := "SELECT * FROM orders LIMIT 20",
    isActive := true, isSaved := false, hasChanges := false }

/-- A server-rendered (pre-seeded) tab. -/
def tabA : QueryTab :=
  { id := 0, name := "A", query := "qa", isActive := true, isSaved := true,
    hasChanges := false }

/-- A tab as it would come back from storage. -/
def tabB : QueryTab :=
  { id := 5, name := "B", query := "qb", isActive := false, isSaved := true,
    hasChanges := false }

/-- A registry pre-seeded from server rendering with one tab. -/
def preSeeded : TabsState :=
  { tabs := [tabA], activeTabId := some 0, nextId := 1 }

/-- A results store holding nothing. -/
def emptyResults : ResultsState :=
  { results := [], isExecuting := false, currentQueryId := "",
    currentResult := none, persisted := [] }

/-- The error result synthesized by the catch branch of the results store's
`executeQuery` (stores.svelte.ts lines 285-294). -/
def errorResultOf (query errId : String) (errTs : Nat) : QueryResult :=
  { id := errId
    name := "Error"
    query := query
    data := []
    executionTime := 0
    rowCount := 0
    status := .error
    timestamp := errTs }

/-- A result as the execution service would return it. -/
def okResult : QueryResult :=
  { id := "r1", name := "Q", query := "SELECT 1", data := [],
    executionTime := 1, rowCount := 0, status := .success, timestamp := 0 }

/-- The first query of the filtering claim (single quotes written via
`squote`). -/
def queryFrance : String :=
  "SELECT * FROM orders WHERE shipCountry = " ++ squote.toString ++ "France"
    ++ squote.toString ++ " LIMIT 5"

/-- The second query of the filtering claim. -/
def queryFreight : String := "SELECT * FROM orders WHERE freight > 100"

/-- A small orders dataset containing a row with `shipCountry = "France"` and
a row with `freight = 150`. -/
def dataC5 : List CsvRow :=
  [[("shipCountry", "FRANCE"), ("freight", "20")],
   [("shipCountry", "France"), ("freight", "150")],
   [("shipCountry", "Germany"), ("freight", "200")]]

/-- A row exercising the comma-quoting rule of the CSV export. -/
def rowC6a : CsvRow := [("col1", "va"), ("col2", "v,b")]

/-- A row exercising the quote-escaping rule of the CSV export. -/
def rowC6b : CsvRow := [("col1", "x\"y"), ("col2", "z")]

/-- A 106-character string that starts with the date pattern and contains both
an at-sign and a dot. -/
def longDateEmail : String :=
  String.mk ("2024-01-01@b.com".toList ++ List.replicate 90 'a')

/-! ## Theorems -/

/-! ### Helper lemmas -/

theorem lookup_deleteEntry (m : List (String × QueryResult)) (k : String) :
    (deleteEntry m k).lookup k = none := by
  induction m with
  | nil => rfl
  | cons a rest ih =>
    by_cases h : a.1 = k
    · simpa [deleteEntry, List.filter_cons, h] using ih
    · simpa [deleteEntry, List.filter_cons, h, List.lookup_cons,
        beq_eq_false_iff_ne, Ne.symm h] using ih

/-- Claim C10: `clearResult` and `clearAllResults` remove stored entries but
leave the currently-displayed result pointer untouched; only `setCurrentResult`
repoints it. -/
theorem c10_clear_preserves_current (s : ResultsState) (tabId : String)
    (r : Option QueryResult) :
    (clearResult s tabId).currentResult = s.currentResult ∧
    (clearAllResults s).currentResult = s.currentResult ∧
    ((clearResult s tabId).results.lookup tabId) = none ∧
    (clearAllResults s).results = [] ∧
    (setCurrentResult s r).currentResult = r := by
  refine ⟨rfl, rfl, ?_, rfl, rfl⟩
  exact lookup_deleteEntry s.results tabId

theorem take_min_length {α : Type} (xs : List α) (n : Nat) :
    xs.take (min n xs.length) = xs.take n := by
  rw [List.take_eq_take]
  omega

theorem paginatedData_succ {α : Type} (data : List α) (i P : Nat) :
    paginatedData data (i + 1) P = (data.drop (i * P)).take P := by
  simp only [paginatedData, startIndex, endIndex, Nat.add_sub_cancel]
  have h2 : min (i * P + P) data.length - i * P
      = min P (data.length - i * P) := by omega
  rw [h2, ← List.length_drop]
  exact take_min_length _ P

theorem totalPages_succ (P len : Nat) (hP : 0 < P) (hlen : 0 < len) :
    totalPages len P = totalPages (len - P) P + 1 := by
  unfold totalPages
  rcases le_or_lt len P with h | h
  · have e1 : len + P - 1 = (len - 1) + P := by omega
    have e2 : len - P = 0 := by omega
    rw [e1, Nat.add_div_right _ hP, Nat.div_eq_of_lt (by omega), e2,
      Nat.div_eq_of_lt (by omega)]
  · have e1 : len + P - 1 = (len - P + P - 1) + P := by omega
    rw [e1, Nat.add_div_right _ hP]

theorem pages_join {α : Type} (P : Nat) (hP : 0 < P) :
    ∀ (n : Nat) (l : List α), totalPages l.length P = n →
      ((List.range n).map (fun i => (l.drop (i * P)).take P)).flatten = l := by
  intro n
  induction n with
  | zero =>
    intro l h
    unfold totalPages at h
    rw [Nat.div_eq_zero_iff hP] at h
    have : l.length = 0 := by omega
    rw [List.length_eq_zero.mp this]
    rfl
  | succ n ih =>
    intro l h
    have hlen : 0 < l.length := by
      by_contra hl
      push_neg at hl
      have h0 : l.length = 0 := by omega
      rw [h0] at h
      unfold totalPages at h
      rw [Nat.div_eq_of_lt (by omega)] at h
      omega
    have hrec : totalPages (l.drop P).length P = n := by
      rw [List.length_drop]
      have := totalPages_succ P l.length hP hlen
      omega
    rw [List.range_succ_eq_map, List.map_cons, List.map_map]
    have hmap : (List.range n).map ((fun i => (l.drop (i * P)).take P) ∘ Nat.succ)
        = (List.range n).map (fun i => ((l.drop P).drop (i * P)).take P) := by
      apply List.map_congr_left
      intro i _
      simp only [Function.comp_apply, List.drop_drop]
      rw [Nat.succ_mul, Nat.add_comm]
    rw [hmap]
    simp only [List.flatten_cons, Nat.zero_mul, List.drop_zero]
    rw [ih (l.drop P) hrec, List.take_append_drop]

/-- Claim C3: for a result with `N > 0` rows and page size `P > 0`,
concatenating the slices of pages `1` through `ceil(N/P)` reconstructs the
row sequence exactly; `goToPage 0` clamps to page 1 and
`goToPage (ceil(N/P)+1)` clamps to the last page. -/
theorem c3_pagination {α : Type} (data : List α) (P : Nat)
    (hN : 0 < data.length) (hP : 0 < P) :
    ((List.range (totalPages data.length P)).map
        (fun i => paginatedData data (i + 1) P)).flatten = data ∧
    goToPage 0 (totalPages data.length P) = 1 ∧
    goToPage (totalPages data.length P + 1) (totalPages data.length P)
      = totalPages data.length P := by
  have htp : 1 ≤ totalPages data.length P := by
    unfold totalPages
    rw [Nat.le_div_iff_mul_le hP]
    omega
  refine ⟨?_, ?_, ?_⟩
  · have hm : (List.range (totalPages data.length P)).map
        (fun i => paginatedData data (i + 1) P)
        = (List.range (totalPages data.length P)).map
          (fun i => (data.drop (i * P)).take P) :=
      List.map_congr_left (fun i _ => paginatedData_succ data i P)
    rw [hm]
    exact pages_join P hP (totalPages data.length P) data rfl
  · unfold goToPage
    omega
  · unfold goToPage
    omega

/-- Witness for C3 at the result rows `[10, 20, 30]` and page size `2`. -/
theorem c3_pagination_witness :
    0 < ([10, 20, 30] : List Nat).length ∧ 0 < 2 ∧
    (((List.range (totalPages ([10, 20, 30] : List Nat).length 2)).map
        (fun i => paginatedData ([10, 20, 30] : List Nat) (i + 1) 2)).flatten
        = [10, 20, 30] ∧
      goToPage 0 (totalPages ([10, 20, 30] : List Nat).length 2) = 1 ∧
      goToPage (totalPages ([10, 20, 30] : List Nat).length 2 + 1)
          (totalPages ([10, 20, 30] : List Nat).length 2)
        = totalPages ([10, 20, 30] : List Nat).length 2) :=
  ⟨by decide, by decide, c3_pagination [10, 20, 30] 2 (by decide) (by decide)⟩

/-! ### Tab registry invariant lemmas -/

theorem setActiveTab_ids (s : TabsState) (i : Nat) :
    (setActiveTab s i).tabs.map (fun t => t.id) = s.tabs.map (fun t => t.id) := by
  simp [setActiveTab, List.map_map, Function.comp]

theorem setActiveTab_inv (s : TabsState) (i : Nat) (h0 : TabsInv0 s)
    (hi : ∃ t ∈ s.tabs, t.id = i) : TabsInv (setActiveTab s i) := by
  obtain ⟨hnd, hbound⟩ := h0
  obtain ⟨t0, ht0, hid⟩ := hi
  refine ⟨⟨?_, ?_⟩, ?_⟩
  · rw [setActiveTab_ids]
    exact hnd
  · intro t ht
    simp only [setActiveTab, List.mem_map] at ht
    obtain ⟨u, hu, rfl⟩ := ht
    exact hbound u hu
  · refine ⟨{ t0 with isActive := (t0.id == i) }, ?_, ?_, ?_⟩
    · simp only [setActiveTab, List.mem_map]
      exact ⟨t0, ht0, rfl⟩
    · simp [setActiveTab, hid]
    · intro u hu
      simp only [setActiveTab, List.mem_map] at hu
      obtain ⟨v, hv, rfl⟩ := hu
      simp [hid]

theorem createTab_inv (s : TabsState) (n q : Option String) (h0 : TabsInv0 s) :
    TabsInv (createTab s n q).1 := by
  obtain ⟨hnd, hbound⟩ := h0
  apply setActiveTab_inv
  · constructor
    · simp only [List.map_append, List.map_cons, List.map_nil]
      rw [List.nodup_append]
      refine ⟨hnd, List.nodup_singleton _, ?_⟩
      intro a ha hb
      simp only [List.mem_singleton] at hb
      subst hb
      simp only [List.mem_map] at ha
      obtain ⟨u, hu, hue⟩ := ha
      exact absurd hue (Nat.ne_of_lt (hbound u hu))
    · intro t ht
      rcases List.mem_append.mp ht with h | h
      · exact Nat.lt_succ_of_lt (hbound t h)
      · simp only [List.mem_singleton] at h
        subst h
        exact Nat.lt_succ_self _
  · refine ⟨_, List.mem_append.mpr (Or.inr (List.mem_singleton_self _)), rfl⟩

theorem filter_inv0 (s : TabsState) (p : QueryTab → Bool) (h0 : TabsInv0 s) :
    TabsInv0 { s with tabs := s.tabs.filter p } := by
  obtain ⟨hnd, hbound⟩ := h0
  constructor
  · exact ((List.filter_sublist s.tabs).map (fun t => t.id)).nodup hnd
  · intro t ht
    exact hbound t (List.mem_of_mem_filter ht)

theorem closeTab_inv (s : TabsState) (i : Nat) (h : TabsInv s) :
    TabsInv (closeTab s i) := by
  obtain ⟨h0, t0, ht0, hact, hflags⟩ := h
  cases hidx : s.tabs.findIdx? (fun t => t.id == i) with
  | none =>
    simp only [closeTab, hidx]
    exact ⟨h0, t0, ht0, hact, hflags⟩
  | some idx =>
    simp only [closeTab, hidx]
    have h1 : TabsInv0 { s with tabs := s.tabs.filter (fun t => t.id != i) } :=
      filter_inv0 s _ h0
    split
    case isTrue hcond =>
      cases hg : (s.tabs.filter (fun t => t.id != i)).get?
          (min idx ((s.tabs.filter (fun t => t.id != i)).length - 1)) with
      | some t =>
        apply setActiveTab_inv _ _ h1
        exact ⟨t, List.get?_mem hg, rfl⟩
      | none =>
        exfalso
        rw [List.get?_eq_none] at hg
        omega
    case isFalse hcond =>
      split
      case isTrue h2 => exact createTab_inv _ _ _ h1
      case isFalse h2 =>
        -- the closed tab was not the active one
        rw [List.findIdx?_eq_some_iff_getElem] at hidx
        obtain ⟨hlt, hpi, -⟩ := hidx
        have hclosed : s.tabs[idx].id = i := eq_of_beq hpi
        have hwas : ((s.tabs.get? idx).map (fun t => t.isActive)).getD false
            = (i == t0.id) := by
          rw [List.get?_eq_getElem?, List.getElem?_eq_getElem hlt]
          simp only [Option.map_some', Option.getD_some]
          rw [hflags _ (List.getElem_mem hlt), hclosed]
        have hne : i ≠ t0.id := by
          intro hcontra
          apply hcond
          constructor
          · rw [hwas, hcontra]
            exact beq_self_eq_true _
          · rcases Nat.eq_zero_or_pos (s.tabs.filter (fun t => t.id != i)).length
              with hz | hp
            · exact absurd hz h2
            · exact hp
        refine ⟨h1, t0, ?_, hact, ?_⟩
        · rw [List.mem_filter]
          refine ⟨ht0, ?_⟩
          simp only [bne_iff_ne, ne_eq]
          exact fun hc => hne hc.symm
        · intro u hu
          exact hflags u (List.mem_of_mem_filter hu)

theorem countActive_of_inv (s : TabsState) (h : TabsInv s) : countActive s = 1 := by
  obtain ⟨⟨hnd, -⟩, t0, ht0, -, hflags⟩ := h
  unfold countActive
  rw [List.countP_congr (q := fun u => u.id == t0.id)
    (fun u hu => by rw [hflags u hu])]
  have hc : List.countP (fun u => u.id == t0.id) s.tabs
      = List.count t0.id (s.tabs.map (fun t => t.id)) := by
    rw [List.count, List.countP_map]
    rfl
  rw [hc]
  exact List.count_eq_one_of_mem hnd (List.mem_map.mpr ⟨t0, ht0, rfl⟩)

theorem validOps_inv (s : TabsState) (ops : List TabOp) (h : TabsInv s)
    (hv : validOps s ops = true) : TabsInv (runOps s ops) := by
  induction ops generalizing s with
  | nil => exact h
  | cons op rest ih =>
    simp only [validOps, Bool.and_eq_true] at hv
    obtain ⟨hc, hrest⟩ := hv
    have hstep : TabsInv (applyOp s op) := by
      cases op with
      | create n q => exact createTab_inv s n q h.1
      | setActive i =>
        apply setActiveTab_inv s i h.1
        have : i ∈ s.tabs.map (fun t => t.id) := by
          simpa [List.elem_iff] using hc
        obtain ⟨t, ht, hte⟩ := List.mem_map.mp this
        exact ⟨t, ht, hte⟩
      | close i => exact closeTab_inv s i h
    exact ih (applyOp s op) hstep hrest

/-- Counterexample to claim C1 as stated: starting from the initialized
one-tab registry, the single operation `setActiveTab 99` (an id absent from
the registry) leaves zero tabs active, not exactly one, because
`setActiveTab` clears the flag on every tab whose id differs from its
argument. -/
theorem c1_counterexample :
    TabsInv seededState ∧ seededState.tabs ≠ [] ∧
    countActive (runOps seededState [TabOp.setActive 99]) = 0 := by decide

/-- Claim C1 (amended): after any sequence of `createTab`, `setActiveTab` and
`closeTab` operations applied to an initialized, non-empty registry, in which
every `setActiveTab` call names the id of a tab present at the moment of the
call, exactly one tab has the active flag set. -/
theorem c1_active_unique (s : TabsState) (ops : List TabOp) (h : TabsInv s)
    (hv : validOps s ops = true) : countActive (runOps s ops) = 1 :=
  countActive_of_inv _ (validOps_inv s ops h hv)

/-- Witness for C1 at the initialized registry and a concrete valid
sequence. -/
theorem c1_active_unique_witness :
    TabsInv seededState ∧
    validOps seededState
      [TabOp.create none none, TabOp.setActive 0, TabOp.close 1] = true ∧
    countActive (runOps seededState
      [TabOp.create none none, TabOp.setActive 0, TabOp.close 1]) = 1 :=
  ⟨by decide, by decide,
    c1_active_unique seededState
      [TabOp.create none none, TabOp.setActive 0, TabOp.close 1]
      (by decide) (by decide)⟩

theorem createTab_tabs_ne_nil (s : TabsState) (n q : Option String) :
    (createTab s n q).1.tabs ≠ [] := by
  simp [createTab, setActiveTab]

theorem closeTab_tabs_ne_nil (s : TabsState) (i : Nat) (h : s.tabs ≠ []) :
    (closeTab s i).tabs ≠ [] := by
  cases hidx : s.tabs.findIdx? (fun t => t.id == i) with
  | none => simpa only [closeTab, hidx]
  | some idx =>
    simp only [closeTab, hidx]
    split
    case isTrue hcond =>
      obtain ⟨-, hlen⟩ := hcond
      cases hg : (s.tabs.filter (fun t => t.id != i)).get?
          (min idx ((s.tabs.filter (fun t => t.id != i)).length - 1)) with
      | some t =>
        simp only [setActiveTab]
        intro hcontra
        rw [List.map_eq_nil_iff] at hcontra
        have hfe : s.tabs.filter (fun t => t.id != i) = [] := hcontra
        rw [hfe] at hlen
        simp at hlen
      | none =>
        exfalso
        rw [List.get?_eq_none] at hg
        omega
    case isFalse hcond =>
      split
      case isTrue h2 => exact createTab_tabs_ne_nil _ _ _
      case isFalse h2 =>
        intro hcontra
        apply h2
        rw [List.length_eq_zero]
        exact hcontra

theorem applyOp_tabs_ne_nil (s : TabsState) (op : TabOp) (h : s.tabs ≠ []) :
    (applyOp s op).tabs ≠ [] := by
  cases op with
  | create n q => exact createTab_tabs_ne_nil s n q
  | setActive i =>
    simp only [applyOp, setActiveTab]
    exact fun hc => h (List.map_eq_nil_iff.mp hc)
  | close i => exact closeTab_tabs_ne_nil s i h

/-- Claim C2: for every sequence of create/close operations on an initialized
(non-empty) registry the tab list never becomes empty, and closing the sole
remaining tab yields a registry holding exactly one new default tab whose
query text is the seed query. -/
theorem c2_never_empty (s : TabsState) (ops : List TabOp) (t : QueryTab)
    (hne : s.tabs ≠ [])
    (_honly : ops.all
      (fun op => match op with | .setActive _ => false | _ => true) = true) :
    (runOps s ops).tabs ≠ [] ∧
    (s.tabs = [t] →
      (closeTab s t.id).tabs.map (fun u => u.query)
        = ["SELECT * FROM orders LIMIT 20"]) := by
  constructor
  · clear _honly
    induction ops generalizing s with
    | nil => exact hne
    | cons op rest ih => exact ih (applyOp s op) (applyOp_tabs_ne_nil s op hne)
  · intro heq
    have hfind : s.tabs.findIdx? (fun u => u.id == t.id) = some 0 := by
      rw [heq]
      simp [List.findIdx?]
    simp [closeTab, hfind, heq, createDefaultTab, createTab, setActiveTab]

/-- Witness for C2 at the initialized registry, a concrete create/close
sequence, and the sole default tab. -/
theorem c2_never_empty_witness :
    seededState.tabs ≠ [] ∧
    ([TabOp.create none none, TabOp.close 0, TabOp.close 1].all
      (fun op => match op with | .setActive _ => false | _ => true) = true) ∧
    ((runOps seededState
        [TabOp.create none none, TabOp.close 0, TabOp.close 1]).tabs ≠ [] ∧
      (seededState.tabs = [seededTab] →
        (closeTab seededState seededTab.id).tabs.map (fun u => u.query)
          = ["SELECT * FROM orders LIMIT 20"])) :=
  ⟨by decide, by decide,
    c2_never_empty seededState
      [TabOp.create none none, TabOp.close 0, TabOp.close 1] seededTab
      (by decide) (by decide)⟩

/-- Counterexample to claim C7 as stated: on a registry pre-seeded with one
tab, running initialization while storage holds a different nonempty tab list
replaces the tab list with the stored one — the tab contents are not left
unchanged. -/
theorem c7_counterexample :
    preSeeded.tabs ≠ [] ∧
    (initTabs preSeeded [tabB] none).tabs ≠ preSeeded.tabs := by decide

/-- Claim C7 (amended): when initialization runs on a registry that already
holds tabs, nothing changes if storage holds no saved tabs (not even the
active-id preference); if storage holds a nonempty saved tab list, both the
tab list and the active-id pointer are replaced from storage (the pointer
falling back to the first saved tab's id when no active id was saved). No
default tab is seeded in either case. -/
theorem c7_init_preseeded (s : TabsState) (saved : List QueryTab)
    (sid : Option Nat) (h : s.tabs ≠ []) :
    (saved = [] → initTabs s saved sid = s) ∧
    (saved ≠ [] →
      (initTabs s saved sid).tabs = saved ∧
      (initTabs s saved sid).activeTabId
        = (match sid with
           | some a => some a
           | none => saved.head?.map (fun t => t.id))) := by
  have hlen : s.tabs.length > 0 := List.length_pos.mpr h
  constructor
  · intro hs
    subst hs
    simp [initTabs, hlen]
  · intro hs
    have hslen : saved.length > 0 := List.length_pos.mpr hs
    simp [initTabs, hlen, hslen]

/-- Witness for C7 at the pre-seeded registry and the stored tab list
`[tabB]`. -/
theorem c7_init_preseeded_witness :
    preSeeded.tabs ≠ [] ∧
    ((([tabB] : List QueryTab) = [] →
        initTabs preSeeded [tabB] none = preSeeded) ∧
      (([tabB] : List QueryTab) ≠ [] →
        (initTabs preSeeded [tabB] none).tabs = [tabB] ∧
        (initTabs preSeeded [tabB] none).activeTabId
          = (match (none : Option Nat) with
             | some a => some a
             | none => ([tabB] : List QueryTab).head?.map (fun t => t.id)))) :=
  ⟨by decide, c7_init_preseeded preSeeded [tabB] none (by decide)⟩

/-- Counterexample to claim C8 as stated: `setActiveTab 99` on the pre-seeded
registry, whose only tab has id 0, is not a silent no-op — the tab list and
the active-id pointer both change. -/
theorem c8_counterexample :
    (99 ∉ preSeeded.tabs.map (fun t => t.id)) ∧
    (setActiveTab preSeeded 99).tabs ≠ preSeeded.tabs ∧
    (setActiveTab preSeeded 99).activeTabId ≠ preSeeded.activeTabId := by decide

/-- Claim C8 (amended): for every registry state and every id absent from the
tab list, `setActiveTab(id)` clears the active flag on every tab (leaving all
other tab fields unchanged) and repoints the active-id pointer to the absent
id; it is not a no-op. -/
theorem c8_setActive_absent (s : TabsState) (i : Nat)
    (h : i ∉ s.tabs.map (fun t => t.id)) :
    (setActiveTab s i).tabs
      = s.tabs.map (fun t => { t with isActive := false }) ∧
    (setActiveTab s i).activeTabId = some i := by
  constructor
  · apply List.map_congr_left
    intro t ht
    have hne : t.id ≠ i := fun hc => h (List.mem_map.mpr ⟨t, ht, hc⟩)
    simp [hne]
  · rfl

/-- Witness for C8 at the pre-seeded registry and the absent id 99. -/
theorem c8_setActive_absent_witness :
    (99 ∉ preSeeded.tabs.map (fun t => t.id)) ∧
    ((setActiveTab preSeeded 99).tabs
        = preSeeded.tabs.map (fun t => { t with isActive := false }) ∧
      (setActiveTab preSeeded 99).activeTabId = some 99) :=
  ⟨by decide, c8_setActive_absent preSeeded 99 (by decide)⟩

/-- Counterexample to claim C4 as stated: a successful execution persists the
updated result map, but a failing execution stores the synthesized error
result in the map without running the persistence step — so the error result
is not stored through the same storage-and-persistence steps as a successful
one. -/
theorem c4_counterexample :
    (executeQuery emptyResults "t1" "SELECT 1" (some okResult) "e1" 0).persisted
      = (executeQuery emptyResults "t1" "SELECT 1" (some okResult) "e1" 0).results ∧
    (executeQuery emptyResults "t1" "SELECT 1" none "e1" 0).results ≠ [] ∧
    (executeQuery emptyResults "t1" "SELECT 1" none "e1" 0).persisted = [] ∧
    (executeQuery emptyResults "t1" "SELECT 1" none "e1" 0).persisted
      ≠ (executeQuery emptyResults "t1" "SELECT 1" none "e1" 0).results := by
  decide

/-- Claim C4 (amended): for a non-blank query, a failing execution stores
under tabId an error-status result with zero rows, zero execution time and
empty data and sets it as the currently-displayed result — through the same
in-memory map update as a successful result — but without the persistence
step, which runs only on success; in every case (success or failure) the
executing flag and the executing-tab marker are cleared in the final step. -/
theorem c4_executeQuery (s : ResultsState) (tabId query : String)
    (outcome : Option QueryResult) (errId : String) (errTs : Nat)
    (h : (jsTrimChars query.toList).isEmpty = false) :
    (executeQuery s tabId query outcome errId errTs).isExecuting = false ∧
    (executeQuery s tabId query outcome errId errTs).currentQueryId = "" ∧
    (∀ r, outcome = some r →
      (executeQuery s tabId query outcome errId errTs).results
          = setEntry s.results tabId r ∧
      (executeQuery s tabId query outcome errId errTs).currentResult = some r ∧
      (executeQuery s tabId query outcome errId errTs).persisted
          = setEntry s.results tabId r) ∧
    (outcome = none →
      ∃ e : QueryResult,
        e.status = QueryStatus.error ∧ e.rowCount = 0 ∧
        e.executionTime = 0 ∧ e.data = [] ∧
        (executeQuery s tabId query outcome errId errTs).results
            = setEntry s.results tabId e ∧
        (executeQuery s tabId query outcome errId errTs).currentResult = some e ∧
        (executeQuery s tabId query outcome errId errTs).persisted
            = s.persisted) := by
  have hq : jsTrimChars query.data ≠ [] := by
    intro hc
    have h2 : (jsTrimChars query.data).isEmpty = false := h
    rw [hc] at h2
    simp at h2
  cases outcome with
  | some r =>
    refine ⟨?_, ?_, ?_, ?_⟩
    · simp [executeQuery, hq]
    · simp [executeQuery, hq]
    · intro r' hr'
      injection hr' with hr'
      subst hr'
      refine ⟨?_, ?_, ?_⟩ <;> simp [executeQuery, hq]
    · intro hcontra
      exact absurd hcontra (by simp)
  | none =>
    refine ⟨by simp [executeQuery, hq], by simp [executeQuery, hq], ?_, fun _ => ?_⟩
    · intro r' hr'
      exact absurd hr' (by simp)
    · refine ⟨errorResultOf query errId errTs, rfl, rfl, rfl, rfl, ?_, ?_, ?_⟩ <;>
        simp [executeQuery, errorResultOf, hq]

/-- Witness for C4 at an empty results store, the non-blank query
`SELECT 1`, and both outcomes through the successful one. -/
theorem c4_executeQuery_witness :
    (jsTrimChars ("SELECT 1" : String).toList).isEmpty = false ∧
    ((executeQuery emptyResults "t1" "SELECT 1" (some okResult) "e1" 0).isExecuting
        = false ∧
      (executeQuery emptyResults "t1" "SELECT 1" (some okResult) "e1" 0).currentQueryId
        = "" ∧
      (∀ r, (some okResult : Option QueryResult) = some r →
        (executeQuery emptyResults "t1" "SELECT 1" (some okResult) "e1" 0).results
            = setEntry emptyResults.results "t1" r ∧
        (executeQuery emptyResults "t1" "SELECT 1" (some okResult) "e1" 0).currentResult
            = some r ∧
        (executeQuery emptyResults "t1" "SELECT 1" (some okResult) "e1" 0).persisted
            = setEntry emptyResults.results "t1" r) ∧
      ((some okResult : Option QueryResult) = none →
        ∃ e : QueryResult,
          e.status = QueryStatus.error ∧ e.rowCount = 0 ∧
          e.executionTime = 0 ∧ e.data = [] ∧
          (executeQuery emptyResults "t1" "SELECT 1" (some okResult) "e1" 0).results
              = setEntry emptyResults.results "t1" e ∧
          (executeQuery emptyResults "t1" "SELECT 1" (some okResult) "e1" 0).currentResult
              = some e ∧
          (executeQuery emptyResults "t1" "SELECT 1" (some okResult) "e1" 0).persisted
              = emptyResults.persisted)) :=
  ⟨by decide,
    c4_executeQuery emptyResults "t1" "SELECT 1" (some okResult) "e1" 0 (by decide)⟩

/-- Counterexample to claim C9 as stated: a long string that begins with the
date pattern and contains both an at-sign and a dot is classed `cell-date`,
not `cell-email` (the date test runs first), and its formatted text ends in
three ASCII dots rather than a single ellipsis character. -/
theorem c9_counterexample :
    longDateEmail.toList.contains '@' = true ∧
    longDateEmail.toList.contains '.' = true ∧
    longDateEmail.toList.length > 100 ∧
    getCellClass (JSValue.str longDateEmail) ≠ "cell-email" ∧
    formatCellValue (JSValue.str longDateEmail)
      ≠ String.mk (longDateEmail.toList.take 97) ++ "…" := by decide

/-- Claim C9 (amended): cell formatting and classification are pure functions
of the single value: null and undefined format to the empty string with class
`cell-null`;
`1234567` formats with locale grouping as `1,234,567` with class
`cell-number`; a string matching `^\d{4}-\d{2}-\d{2}` is classed `cell-date`;
a string containing both an at-sign and a dot that does not match the date
pattern is classed `cell-email`; and any string longer than 100 characters
formats as its first 97 characters followed by `...` (three dots). -/
theorem c9_cell_classification (s t u : String)
    (hs : matchesDateStart s = true)
    (ht : matchesDateStart t = false)
    (hta : t.toList.contains '@' = true)
    (htd : t.toList.contains '.' = true)
    (hu : u.toList.length > 100) :
    formatCellValue JSValue.null = "" ∧
    getCellClass JSValue.null = "cell-null" ∧
    formatCellValue JSValue.undefined = "" ∧
    getCellClass JSValue.undefined = "cell-null" ∧
    formatCellValue (JSValue.num 1234567) = "1,234,567" ∧
    getCellClass (JSValue.num 1234567) = "cell-number" ∧
    getCellClass (JSValue.str s) = "cell-date" ∧
    getCellClass (JSValue.str t) = "cell-email" ∧
    formatCellValue (JSValue.str u) = String.mk (u.toList.take 97) ++ "..." := by
  refine ⟨rfl, rfl, rfl, rfl, by decide, rfl, ?_, ?_, ?_⟩
  · simp [getCellClass, hs]
  · have h1 : '@' ∈ t.toList := by simpa using hta
    have h2 : '.' ∈ t.toList := by simpa using htd
    simp only [getCellClass, ht, Bool.false_eq_true, if_false]
    simp
    exact ⟨h1, h2⟩
  · simp only [formatCellValue]
    rw [if_pos hu]

/-- Witness for C9 at the date string `2024-01-01`, the email string
`a@b.com`, and the 106-character string `longDateEmail`. -/
theorem c9_cell_classification_witness :
    (matchesDateStart "2024-01-01" = true ∧
      matchesDateStart "a@b.com" = false ∧
      ("a@b.com" : String).toList.contains '@' = true ∧
      ("a@b.com" : String).toList.contains '.' = true ∧
      longDateEmail.toList.length > 100) ∧
    (formatCellValue JSValue.null = "" ∧
      getCellClass JSValue.null = "cell-null" ∧
      formatCellValue JSValue.undefined = "" ∧
      getCellClass JSValue.undefined = "cell-null" ∧
      formatCellValue (JSValue.num 1234567) = "1,234,567" ∧
      getCellClass (JSValue.num 1234567) = "cell-number" ∧
      getCellClass (JSValue.str "2024-01-01") = "cell-date" ∧
      getCellClass (JSValue.str "a@b.com") = "cell-email" ∧
      formatCellValue (JSValue.str longDateEmail)
        = String.mk (longDateEmail.toList.take 97) ++ "...") :=
  ⟨⟨by decide, by decide, by decide, by decide, by decide⟩,
    c9_cell_classification "2024-01-01" "a@b.com" longDateEmail
      (by decide) (by decide) (by decide) (by decide) (by decide)⟩

/-! ### Query-filtering lemmas (claim C5) -/

theorem applyQueryFiltering_france (data : List CsvRow) :
    applyQueryFiltering data queryFrance
      = (data.take 5).filter (shipCountryPred "france".toList) := by
  have e1 : findLimit (queryFrance.toList.map Char.toLower) = some 5 := by decide
  have e2 : containsChars "where".toList (queryFrance.toList.map Char.toLower)
      = true := by decide
  have e3 : findCountry (queryFrance.toList.map Char.toLower)
      = some "france".toList := by decide
  have e4 : findFreight (queryFrance.toList.map Char.toLower) = none := by decide
  have hle : ((data.take 5).filter (shipCountryPred "france".toList)).length ≤ 5 :=
    le_trans (List.length_filter_le _ _) (List.length_take_le 5 data)
  simp only [applyQueryFiltering, e1, e2, e3, e4, if_true]
  rw [if_neg (by omega)]

theorem applyQueryFiltering_freight (data : List CsvRow) :
    applyQueryFiltering data queryFreight
      = if (data.filter (freightPred 100)).length > 1000
        then (data.filter (freightPred 100)).take 1000
        else data.filter (freightPred 100) := by
  have e1 : findLimit (queryFreight.toList.map Char.toLower) = none := by decide
  have e2 : containsChars "where".toList (queryFreight.toList.map Char.toLower)
      = true := by decide
  have e3 : findCountry (queryFreight.toList.map Char.toLower) = none := by decide
  have e4 : findFreight (queryFreight.toList.map Char.toLower) = some 100 := by
    decide
  simp only [applyQueryFiltering, e1, e2, e3, e4, if_true]

theorem shipCountryPred_spec (r : CsvRow)
    (h : shipCountryPred "france".toList r = true) :
    ∃ s, r.lookup "shipCountry" = some s ∧
      s.toList.map Char.toLower = "France".toList.map Char.toLower := by
  unfold shipCountryPred at h
  cases hlk : r.lookup "shipCountry" with
  | none => rw [hlk] at h; exact absurd h (by simp)
  | some s =>
    rw [hlk] at h
    rw [Bool.and_eq_true] at h
    refine ⟨s, rfl, ?_⟩
    have := eq_of_beq h.2
    rw [this]
    decide

theorem freightPred_spec (r : CsvRow) (h : freightPred 100 r = true) :
    ∃ s q, r.lookup "freight" = some s ∧ parseFloatQ s = some q ∧
      (100 : ℚ) < q := by
  unfold freightPred at h
  cases hlk : r.lookup "freight" with
  | none => rw [hlk] at h; exact absurd h (by simp)
  | some s =>
    rw [hlk] at h
    rw [Bool.and_eq_true] at h
    have h2 := h.2
    cases hpf : parseFloatQ s with
    | none => rw [hpf] at h2; exact absurd h2 (by simp)
    | some q =>
      rw [hpf] at h2
      exact ⟨s, q, rfl, hpf, by exact_mod_cast of_decide_eq_true h2⟩

/-- Claim C5: on a loaded orders dataset containing a France row and a
freight-150 row, the France-LIMIT-5 query returns at most 5 rows, all with
`shipCountry` case-insensitively equal to `France`, and the freight query
returns only rows whose numeric `freight` field exceeds 100. -/
theorem c5_filtering (data : List CsvRow)
    (_h1 : ∃ r ∈ data, r.lookup "shipCountry" = some "France")
    (_h2 : ∃ r ∈ data, r.lookup "freight" = some "150") :
    (applyQueryFiltering data queryFrance).length ≤ 5 ∧
    (∀ r ∈ applyQueryFiltering data queryFrance,
      ∃ s, r.lookup "shipCountry" = some s ∧
        s.toList.map Char.toLower = "France".toList.map Char.toLower) ∧
    (∀ r ∈ applyQueryFiltering data queryFreight,
      ∃ s q, r.lookup "freight" = some s ∧ parseFloatQ s = some q ∧
        (100 : ℚ) < q) := by
  refine ⟨?_, ?_, ?_⟩
  · rw [applyQueryFiltering_france]
    exact le_trans (List.length_filter_le _ _) (List.length_take_le 5 data)
  · intro r hr
    rw [applyQueryFiltering_france] at hr
    exact shipCountryPred_spec r (List.mem_filter.mp hr).2
  · intro r hr
    rw [applyQueryFiltering_freight] at hr
    have hrf : r ∈ data.filter (freightPred 100) := by
      by_cases hc : (data.filter (freightPred 100)).length > 1000
      · rw [if_pos hc] at hr
        exact (List.take_sublist _ _).subset hr
      · rwa [if_neg hc] at hr
    exact freightPred_spec r (List.mem_filter.mp hrf).2

/-- Witness for C5 at the three-row dataset `dataC5`. -/
theorem c5_filtering_witness :
    ((∃ r ∈ dataC5, r.lookup "shipCountry" = some "France") ∧
      (∃ r ∈ dataC5, r.lookup "freight" = some "150")) ∧
    ((applyQueryFiltering dataC5 queryFrance).length ≤ 5 ∧
      (∀ r ∈ applyQueryFiltering dataC5 queryFrance,
        ∃ s, r.lookup "shipCountry" = some s ∧
          s.toList.map Char.toLower = "France".toList.map Char.toLower) ∧
      (∀ r ∈ applyQueryFiltering dataC5 queryFreight,
        ∃ s q, r.lookup "freight" = some s ∧ parseFloatQ s = some q ∧
          (100 : ℚ) < q)) :=
  ⟨⟨by decide, by decide⟩, c5_filtering dataC5 (by decide) (by decide)⟩

/-! ### CSV round-trip lemmas (claim C6) -/

theorem mem_escQ (c : Char) : ∀ (cs : List Char), c ∈ escQ cs → c ∈ cs ∨ c = '"' := by
  intro cs
  induction cs with
  | nil => intro h; exact absurd h (List.not_mem_nil c)
  | cons d cs ih =>
    intro h
    by_cases hd : d = '"'
    · rw [escQ, if_pos hd] at h
      simp only [List.mem_cons] at h
      rcases h with h | h | h
      · exact Or.inr h
      · exact Or.inr h
      · rcases ih h with h2 | h2
        · exact Or.inl (List.mem_cons_of_mem d h2)
        · exact Or.inr h2
    · rw [escQ, if_neg hd] at h
      simp only [List.mem_cons] at h
      rcases h with h | h
      · exact Or.inl (by simp [h])
      · rcases ih h with h2 | h2
        · exact Or.inl (List.mem_cons_of_mem d h2)
        · exact Or.inr h2

theorem mem_encodeCell (c : Char) (v : String) (h : c ∈ (encodeCell v).toList) :
    c ∈ v.toList ∨ c = '"' := by
  unfold encodeCell at h
  split at h
  · have h2 : c ∈ ('"' :: (escQ v.toList ++ ['"'])) := h
    simp only [List.mem_cons, List.mem_append, List.mem_singleton] at h2
    rcases h2 with h2 | h2 | h2
    · exact Or.inr h2
    · exact mem_escQ c v.toList h2
    · rcases h2 with h2 | h2
      · exact Or.inr h2
      · exact absurd h2 (List.not_mem_nil c)
  · exact Or.inl h

theorem mem_joinChars (c : Char) (sep : List Char) :
    ∀ (ls : List (List Char)), c ∈ joinChars sep ls →
      (∃ l ∈ ls, c ∈ l) ∨ c ∈ sep := by
  intro ls
  induction ls with
  | nil => intro h; exact absurd h (List.not_mem_nil c)
  | cons l ls ih =>
    intro h
    cases ls with
    | nil => exact Or.inl ⟨l, List.mem_cons_self l [], h⟩
    | cons l2 ls' =>
      simp only [joinChars, List.append_assoc, List.mem_append] at h
      rcases h with h | h | h
      · exact Or.inl ⟨l, List.mem_cons_self _ _, h⟩
      · exact Or.inr h
      · rcases ih h with ⟨x, hx, hcx⟩ | h2
        · exact Or.inl ⟨x, List.mem_cons_of_mem l hx, hcx⟩
        · exact Or.inr h2

theorem head?_dropWhile {α : Type} (p : α → Bool) :
    ∀ (l : List α) (c : α), (l.dropWhile p).head? = some c → p c = false := by
  intro l
  induction l with
  | nil => intro c h; simp [List.dropWhile] at h
  | cons a t ih =>
    intro c h
    rw [List.dropWhile_cons] at h
    split at h
    · exact ih c h
    · rename_i hp
      injection h with h
      subst h
      exact Bool.eq_false_iff.mpr hp

theorem trimInv_dropWhile (cs : List Char) (h : jsTrimChars cs = cs) :
    cs.dropWhile isWS = cs := by
  have hsub := List.dropWhile_sublist (l := cs) isWS
  apply hsub.eq_of_length
  have h1 : (jsTrimChars cs).length ≤ (cs.dropWhile isWS).length := by
    unfold jsTrimChars
    rw [List.length_reverse]
    calc ((cs.dropWhile isWS).reverse.dropWhile isWS).length
        ≤ (cs.dropWhile isWS).reverse.length :=
          (List.dropWhile_sublist _).length_le
      _ = (cs.dropWhile isWS).length := List.length_reverse _
  have h2 := hsub.length_le
  rw [h] at h1
  omega

theorem trimInv_head (cs : List Char) (h : jsTrimChars cs = cs) (c : Char)
    (hc : cs.head? = some c) : isWS c = false := by
  rw [← trimInv_dropWhile cs h] at hc
  exact head?_dropWhile isWS cs c hc

theorem trimInv_getLast (cs : List Char) (h : jsTrimChars cs = cs) (c : Char)
    (hc : cs.getLast? = some c) : isWS c = false := by
  have h2 : cs.reverse = (cs.dropWhile isWS).reverse.dropWhile isWS := by
    conv_lhs => rw [← h]
    unfold jsTrimChars
    rw [List.reverse_reverse]
  rw [List.getLast?_eq_head?_reverse, h2] at hc
  exact head?_dropWhile isWS _ c hc

theorem jsTrimChars_eq_self (cs : List Char)
    (h1 : ∀ c, cs.head? = some c → isWS c = false)
    (h2 : ∀ c, cs.getLast? = some c → isWS c = false) :
    jsTrimChars cs = cs := by
  have hdw : ∀ (l : List Char), (∀ c, l.head? = some c → isWS c = false) →
      l.dropWhile isWS = l := by
    intro l hl
    cases l with
    | nil => rfl
    | cons a t =>
      rw [List.dropWhile_cons, if_neg]
      rw [hl a rfl]
      simp
  unfold jsTrimChars
  rw [hdw cs h1, hdw _ (fun c hc => h2 c (by rwa [List.head?_reverse] at hc)),
    List.reverse_reverse]

theorem joinChars_ne_nil (sep : List Char) (l : List Char)
    (ls : List (List Char)) (h : l ≠ []) : joinChars sep (l :: ls) ≠ [] := by
  cases ls with
  | nil => exact h
  | cons l2 ls' =>
    cases l with
    | nil => exact absurd rfl h
    | cons c t => simp [joinChars]

theorem head?_joinChars (sep : List Char) (l : List Char)
    (ls : List (List Char)) (h : l ≠ []) :
    (joinChars sep (l :: ls)).head? = l.head? := by
  cases ls with
  | nil => rfl
  | cons l2 ls' =>
    cases l with
    | nil => exact absurd rfl h
    | cons c t => rfl

theorem getLast?_joinChars (sep : List Char) :
    ∀ (ls : List (List Char)) (l : List Char), (∀ x ∈ l :: ls, x ≠ []) →
      ∃ x ∈ l :: ls, (joinChars sep (l :: ls)).getLast? = x.getLast? := by
  intro ls
  induction ls with
  | nil => intro l _; exact ⟨l, List.mem_cons_self l [], rfl⟩
  | cons l2 ls' ih =>
    intro l h
    obtain ⟨x, hx, he⟩ := ih l2 (fun y hy => h y (List.mem_cons_of_mem l hy))
    refine ⟨x, List.mem_cons_of_mem l hx, ?_⟩
    have hne : joinChars sep (l2 :: ls') ≠ [] :=
      joinChars_ne_nil sep l2 ls' (h l2 (by simp))
    cases hj : (joinChars sep (l2 :: ls')).getLast? with
    | none => exact absurd (List.getLast?_eq_none_iff.mp hj) hne
    | some a =>
      rw [hj] at he
      simp only [joinChars, List.append_assoc, List.getLast?_append, hj]
      simp [Option.or]
      exact he

theorem splitLinesAux_line :
    ∀ (l : List Char) (acc rest : List Char), '\n' ∉ l → '\r' ∉ l →
      splitLinesAux acc (l ++ '\n' :: rest)
        = (acc.reverse ++ l) :: splitLinesAux [] rest := by
  intro l
  induction l with
  | nil =>
    intro acc rest _ _
    simp [splitLinesAux]
  | cons c t ih =>
    intro acc rest hnl hcr
    have hc1 : c ≠ '\n' := fun h => hnl (List.mem_cons.mpr (Or.inl h.symm))
    have hc2 : c ≠ '\r' := fun h => hcr (List.mem_cons.mpr (Or.inl h.symm))
    rw [List.cons_append, splitLinesAux, if_neg hc1, if_neg (fun hand => hc2 hand.1),
      ih (c :: acc) rest (fun h => hnl (List.mem_cons_of_mem c h))
        (fun h => hcr (List.mem_cons_of_mem c h))]
    rw [List.reverse_cons, List.append_assoc, List.singleton_append]

theorem splitLinesAux_last :
    ∀ (l : List Char) (acc : List Char), '\n' ∉ l → '\r' ∉ l →
      splitLinesAux acc l = [acc.reverse ++ l] := by
  intro l
  induction l with
  | nil => intro acc _ _; simp [splitLinesAux]
  | cons c t ih =>
    intro acc hnl hcr
    have hc1 : c ≠ '\n' := fun h => hnl (List.mem_cons.mpr (Or.inl h.symm))
    have hc2 : c ≠ '\r' := fun h => hcr (List.mem_cons.mpr (Or.inl h.symm))
    rw [splitLinesAux, if_neg hc1, if_neg (fun hand => hc2 hand.1),
      ih (c :: acc) (fun h => hnl (List.mem_cons_of_mem c h))
        (fun h => hcr (List.mem_cons_of_mem c h))]
    rw [List.reverse_cons, List.append_assoc, List.singleton_append]

theorem splitLinesAux_join :
    ∀ (ls : List (List Char)) (l : List Char),
      (∀ x ∈ l :: ls, '\n' ∉ x ∧ '\r' ∉ x) →
      splitLinesAux [] (joinChars ['\n'] (l :: ls)) = l :: ls := by
  intro ls
  induction ls with
  | nil =>
    intro l h
    rw [show joinChars ['\n'] [l] = l from rfl,
      splitLinesAux_last l [] (h l (by simp)).1 (h l (by simp)).2]
    simp
  | cons l2 ls' ih =>
    intro l h
    have hj : joinChars ['\n'] (l :: l2 :: ls')
        = l ++ '\n' :: joinChars ['\n'] (l2 :: ls') := by
      simp [joinChars]
    rw [hj, splitLinesAux_line l [] _ (h l (by simp)).1 (h l (by simp)).2,
      ih l2 (fun y hy => h y (List.mem_cons_of_mem l hy))]
    simp

theorem parseCSVLineAux_plain :
    ∀ (cs : List Char), (∀ c ∈ cs, c ≠ ',' ∧ c ≠ '"') →
      ∀ (acc suffix : List Char),
        parseCSVLineAux false acc (cs ++ suffix)
          = parseCSVLineAux false (cs.reverse ++ acc) suffix := by
  intro cs
  induction cs with
  | nil => intro _ acc suffix; simp
  | cons c t ih =>
    intro h acc suffix
    have hc := h c (List.mem_cons_self c t)
    rw [List.cons_append, parseCSVLineAux, if_neg hc.2,
      if_neg (fun hand => hc.1 hand.1),
      ih (fun d hd => h d (List.mem_cons_of_mem c hd)) (c :: acc) suffix]
    rw [List.reverse_cons, List.append_assoc, List.singleton_append]

theorem parseCSVLineAux_quoted :
    ∀ (v : List Char) (acc suffix : List Char), suffix.head? ≠ some '"' →
      parseCSVLineAux true acc (escQ v ++ '"' :: suffix)
        = parseCSVLineAux false (v.reverse ++ acc) suffix := by
  intro v
  induction v with
  | nil =>
    intro acc suffix hs
    rw [show escQ [] = [] from rfl, List.nil_append, parseCSVLineAux,
      if_pos rfl, if_neg (fun hand => hs hand.2)]
    simp
  | cons c v' ih =>
    intro acc suffix hs
    by_cases hc : c = '"'
    · subst hc
      rw [show escQ ('"' :: v') = '"' :: '"' :: escQ v' from by
          rw [escQ, if_pos rfl]]
      rw [List.cons_append, List.cons_append, parseCSVLineAux, if_pos rfl,
        if_pos ⟨rfl, rfl⟩]
      simp only [List.tail_cons]
      rw [ih ('"' :: acc) suffix hs, List.reverse_cons, List.append_assoc,
        List.singleton_append]
    · rw [show escQ (c :: v') = c :: escQ v' from by rw [escQ, if_neg hc]]
      rw [List.cons_append, parseCSVLineAux, if_neg hc,
        if_neg (fun hand => nomatch hand.2),
        ih (c :: acc) suffix hs, List.reverse_cons, List.append_assoc,
        List.singleton_append]

theorem goodCell_spec (v : String) (h : goodCell v = true) :
    v.toList ≠ [] ∧ '\n' ∉ v.toList ∧ '\r' ∉ v.toList ∧
      jsTrimChars v.toList = v.toList := by
  unfold goodCell at h
  simp only [Bool.and_eq_true, Bool.not_eq_true', beq_iff_eq] at h
  obtain ⟨⟨⟨h1, h2⟩, h3⟩, h4⟩ := h
  refine ⟨?_, ?_, ?_, h4⟩
  · intro hc
    rw [hc] at h1
    simp at h1
  · intro hc
    have he := List.elem_iff.mpr hc
    rw [show v.toList.contains '\n' = v.toList.elem '\n' from rfl, he] at h2
    cases h2
  · intro hc
    have he := List.elem_iff.mpr hc
    rw [show v.toList.contains '\r' = v.toList.elem '\r' from rfl, he] at h3
    cases h3

theorem goodHeader_spec (h : String) (hh : goodHeader h = true) :
    goodCell h = true ∧ ',' ∉ h.toList ∧ '"' ∉ h.toList := by
  unfold goodHeader at hh
  simp only [Bool.and_eq_true, Bool.not_eq_true'] at hh
  obtain ⟨⟨h1, h2⟩, h3⟩ := hh
  refine ⟨h1, ?_, ?_⟩
  · intro hc
    have he := List.elem_iff.mpr hc
    rw [show h.toList.contains ',' = h.toList.elem ',' from rfl, he] at h2
    cases h2
  · intro hc
    have he := List.elem_iff.mpr hc
    rw [show h.toList.contains '"' = h.toList.elem '"' from rfl, he] at h3
    cases h3

theorem encodeCell_eq_self (v : String) (h1 : ',' ∉ v.toList)
    (h2 : '"' ∉ v.toList) (h3 : '\n' ∉ v.toList) : encodeCell v = v := by
  have c1 : v.toList.contains ',' = false :=
    Bool.eq_false_iff.mpr (fun hc => h1 (List.elem_iff.mp hc))
  have c2 : v.toList.contains '"' = false :=
    Bool.eq_false_iff.mpr (fun hc => h2 (List.elem_iff.mp hc))
  have c3 : v.toList.contains '\n' = false :=
    Bool.eq_false_iff.mpr (fun hc => h3 (List.elem_iff.mp hc))
  unfold encodeCell
  rw [c1, c2, c3]
  simp

theorem encodeCell_toList_ne_nil (v : String) (hne : v.toList ≠ []) :
    (encodeCell v).toList ≠ [] := by
  unfold encodeCell
  split
  · simp
  · exact hne

theorem encodeCell_getLast (v : String) (hg : goodCell v = true) (c : Char)
    (hc : (encodeCell v).toList.getLast? = some c) : isWS c = false := by
  obtain ⟨hne, hnl, hcr, htrim⟩ := goodCell_spec v hg
  unfold encodeCell at hc
  split at hc
  · have hc2 : (('"' :: (escQ v.toList ++ ['"'])) : List Char).getLast? = some c := hc
    rw [show ('"' :: (escQ v.toList ++ ['"']) : List Char)
        = ('"' :: escQ v.toList) ++ ['"'] from by simp,
      List.getLast?_concat] at hc2
    injection hc2 with hc2
    subst hc2
    decide
  · exact trimInv_getLast v.toList htrim c hc

theorem lookup_self_keys :
    ∀ (row : CsvRow), (row.map Prod.fst).Nodup →
      (row.map Prod.fst).map (fun h => ((row.lookup h).getD ""))
        = row.map Prod.snd := by
  intro row
  induction row with
  | nil => intro _; rfl
  | cons p r ih =>
    intro hnd
    obtain ⟨k, b⟩ := p
    simp only [List.map_cons]
    have hnotin : k ∉ r.map Prod.fst := by
      have := (List.nodup_cons.mp hnd).1
      simpa using this
    congr 1
    · simp [List.lookup]
    · have hcongr : (r.map Prod.fst).map
          (fun h => ((List.lookup h ((k, b) :: r)).getD ""))
          = (r.map Prod.fst).map (fun h => ((List.lookup h r).getD "")) := by
        apply List.map_congr_left
        intro h hmem
        have hne : (h == k) = false := by
          rw [beq_eq_false_iff_ne]
          exact fun hc => hnotin (hc ▸ hmem)
        simp [List.lookup, hne]
      rw [hcongr, ih (List.nodup_cons.mp hnd).2]

theorem parseCSVLineAux_cell (v : String)
    (acc suffix : List Char) (hs : suffix.head? ≠ some '"') :
    parseCSVLineAux false acc ((encodeCell v).toList ++ suffix)
      = parseCSVLineAux false (v.toList.reverse ++ acc) suffix := by
  unfold encodeCell
  split
  case isTrue hq =>
    show parseCSVLineAux false acc (('"' :: (escQ v.toList ++ ['"'])) ++ suffix) = _
    rw [List.cons_append, List.append_assoc, List.singleton_append,
      parseCSVLineAux, if_pos rfl, if_neg (fun hand => nomatch hand.1)]
    exact parseCSVLineAux_quoted v.toList acc suffix hs
  case isFalse hq =>
    have hcs : ∀ c ∈ v.toList, c ≠ ',' ∧ c ≠ '"' := by
      intro c hcmem
      constructor <;> intro he <;> subst he <;> apply hq
      · have he2 := List.elem_iff.mpr hcmem
        rw [show v.toList.contains ',' = v.toList.elem ',' from rfl, he2]
        simp
      · have he2 := List.elem_iff.mpr hcmem
        rw [show v.toList.contains '"' = v.toList.elem '"' from rfl, he2]
        simp
    exact parseCSVLineAux_plain v.toList hcs acc suffix

theorem parseCSVLine_joined :
    ∀ (cells : List String), cells ≠ [] → (∀ v ∈ cells, goodCell v = true) →
      parseCSVLineAux false []
          (joinChars [','] (cells.map (fun v => (encodeCell v).toList)))
        = cells := by
  intro cells
  induction cells with
  | nil => intro hne _; exact absurd rfl hne
  | cons v cells' ih =>
    intro _ hg
    cases cells' with
    | nil =>
      simp only [List.map_cons, List.map_nil]
      rw [show joinChars [','] [(encodeCell v).toList] = (encodeCell v).toList
          from rfl]
      have hcell := parseCSVLineAux_cell v [] [] (by simp)
      rw [List.append_nil] at hcell
      rw [hcell, parseCSVLineAux, List.append_nil, List.reverse_reverse]
      obtain ⟨-, -, -, htrim⟩ := goodCell_spec v (hg v (by simp))
      rw [htrim]
      rfl
    | cons v2 cells'' =>
      simp only [List.map_cons]
      rw [show joinChars [',']
            ((encodeCell v).toList :: (encodeCell v2).toList
              :: cells''.map (fun u => (encodeCell u).toList))
          = (encodeCell v).toList
            ++ ',' :: joinChars [','] ((encodeCell v2).toList
              :: cells''.map (fun u => (encodeCell u).toList)) from by
          simp [joinChars]]
      rw [parseCSVLineAux_cell v [] _ (by simp),
        parseCSVLineAux, if_neg (by decide : ¬(',' = '"')), if_pos ⟨rfl, rfl⟩,
        List.append_nil, List.reverse_reverse]
      obtain ⟨-, -, -, htrim⟩ := goodCell_spec v (hg v (by simp))
      rw [htrim]
      have hrest := ih (by simp) (fun u hu => hg u (List.mem_cons_of_mem v hu))
      simp only [List.map_cons] at hrest
      rw [hrest]
      rfl

theorem line_not_mem (c : Char) (hc1 : c ≠ ',') (hc2 : c ≠ '"')
    (cells : List String) (hcells : ∀ v ∈ cells, c ∉ v.toList) :
    c ∉ joinChars [','] (cells.map (fun v => (encodeCell v).toList)) := by
  intro hmem
  rcases mem_joinChars c [','] _ hmem with ⟨l, hl, hcl⟩ | hsep
  · obtain ⟨v, hv, rfl⟩ := List.mem_map.mp hl
    rcases mem_encodeCell c v hcl with h | h
    · exact hcells v hv h
    · exact hc2 h
  · rw [List.mem_singleton] at hsep
    exact hc1 hsep

theorem line_getLast (v0 : String) (cells' : List String)
    (hg : ∀ v ∈ v0 :: cells', goodCell v = true) (c : Char)
    (hc : (joinChars [',']
        ((encodeCell v0).toList :: cells'.map (fun v => (encodeCell v).toList))).getLast?
      = some c) :
    isWS c = false := by
  have hallne : ∀ x ∈ (encodeCell v0).toList
      :: cells'.map (fun v => (encodeCell v).toList), x ≠ [] := by
    intro x hx
    rcases List.mem_cons.mp hx with hx | hx
    · subst hx
      exact encodeCell_toList_ne_nil v0
        (goodCell_spec v0 (hg v0 (List.mem_cons_self _ _))).1
    · obtain ⟨v, hv, rfl⟩ := List.mem_map.mp hx
      exact encodeCell_toList_ne_nil v
        (goodCell_spec v (hg v (List.mem_cons_of_mem v0 hv))).1
  obtain ⟨x, hx, he⟩ := getLast?_joinChars [',']
    (cells'.map (fun v => (encodeCell v).toList)) ((encodeCell v0).toList) hallne
  rw [he] at hc
  rcases List.mem_cons.mp hx with hx | hx
  · subst hx
    exact encodeCell_getLast v0 (hg v0 (List.mem_cons_self _ _)) c hc
  · obtain ⟨v, hv, rfl⟩ := List.mem_map.mp hx
    exact encodeCell_getLast v (hg v (List.mem_cons_of_mem v0 hv)) c hc

theorem filterMap_id_of_some {α : Type} (f : α → Option α) :
    ∀ (l : List α), (∀ x ∈ l, f x = some x) → l.filterMap f = l := by
  intro l
  induction l with
  | nil => intro _; rfl
  | cons a t ih =>
    intro h
    rw [List.filterMap_cons, h a (List.mem_cons_self a t)]
    simp [ih (fun x hx => h x (List.mem_cons_of_mem a hx))]

theorem line_no_break (cells : List String)
    (hg : ∀ v ∈ cells, goodCell v = true) :
    '\n' ∉ joinChars [','] (cells.map (fun v => (encodeCell v).toList)) ∧
    '\r' ∉ joinChars [','] (cells.map (fun v => (encodeCell v).toList)) :=
  ⟨line_not_mem '\n' (by decide) (by decide) cells
      (fun v hv => (goodCell_spec v (hg v hv)).2.1),
    line_not_mem '\r' (by decide) (by decide) cells
      (fun v hv => (goodCell_spec v (hg v hv)).2.2.1)⟩

theorem encLine_ne_nil (cells : List String) (hne : cells ≠ [])
    (hg : ∀ v ∈ cells, goodCell v = true) :
    joinChars [','] (cells.map (fun v => (encodeCell v).toList)) ≠ [] := by
  obtain ⟨v0, cells', rfl⟩ := List.exists_cons_of_ne_nil hne
  rw [List.map_cons]
  exact joinChars_ne_nil [','] _ _
    (encodeCell_toList_ne_nil v0
      (goodCell_spec v0 (hg v0 (List.mem_cons_self _ _))).1)

theorem encLine_getLast (cells : List String) (hne : cells ≠ [])
    (hg : ∀ v ∈ cells, goodCell v = true) (c : Char)
    (hc : (joinChars [','] (cells.map (fun v => (encodeCell v).toList))).getLast?
      = some c) : isWS c = false := by
  obtain ⟨v0, cells', rfl⟩ := List.exists_cons_of_ne_nil hne
  rw [List.map_cons] at hc
  exact line_getLast v0 cells' hg c hc

/-- Claim C6 (amended): for a nonempty result whose column names are distinct,
nonempty, free of commas, quotes and line breaks, and unchanged by trimming,
and whose rows all carry exactly those columns with cell values that are
nonempty, free of line breaks, and unchanged by trimming, serializing with the
CSV export and parsing the text back yields exactly the original rows — same
row count and same cell values. -/
theorem c6_roundtrip (first : CsvRow) (rest : List CsvRow)
    (hfne : first ≠ [])
    (hnd : (first.map Prod.fst).Nodup)
    (hhead : ∀ h ∈ first.map Prod.fst, goodHeader h = true)
    (hrows : ∀ row ∈ first :: rest, row.map Prod.fst = first.map Prod.fst ∧
      ∀ v ∈ row.map Prod.snd, goodCell v = true) :
    parseCSV ((exportToCSV (first :: rest)).getD "") = first :: rest := by
  have hheadcell : ∀ h ∈ first.map Prod.fst, goodCell h = true :=
    fun h hm => (goodHeader_spec h (hhead h hm)).1
  have hne0 : first.map Prod.fst ≠ [] :=
    fun hc => hfne (List.map_eq_nil_iff.mp hc)
  have hheadenc : (first.map Prod.fst).map String.toList
      = (first.map Prod.fst).map (fun v => (encodeCell v).toList) := by
    apply List.map_congr_left
    intro h hmem
    obtain ⟨hgc, hcm, hq⟩ := goodHeader_spec h (hhead h hmem)
    obtain ⟨-, hnl, -, -⟩ := goodCell_spec h hgc
    rw [encodeCell_eq_self h hcm hq hnl]
  have hrowline : ∀ row ∈ first :: rest,
      (first.map Prod.fst).map
          (fun h => (encodeCell ((row.lookup h).getD "")).toList)
        = (row.map Prod.snd).map (fun v => (encodeCell v).toList) := by
    intro row hrow
    have hkeys := (hrows row hrow).1
    have hl := lookup_self_keys row (by rw [hkeys]; exact hnd)
    rw [← hkeys]
    conv_rhs => rw [← hl, List.map_map]
    apply List.map_congr_left
    intro h _
    rfl
  have hrowcells : ∀ row ∈ first :: rest, row.map Prod.snd ≠ [] := by
    intro row hrow hc
    have hkeys := (hrows row hrow).1
    rw [List.map_eq_nil_iff.mp hc] at hkeys
    exact hne0 hkeys.symm
  rw [show (exportToCSV (first :: rest)).getD ""
      = String.mk (joinChars ['\n']
          ((joinChars [','] ((first.map Prod.fst).map String.toList))
            :: (first :: rest).map (fun row => joinChars [',']
              ((first.map Prod.fst).map
                (fun h => (encodeCell ((row.lookup h).getD "")).toList)))))
    from rfl]
  have hlines : (joinChars [','] ((first.map Prod.fst).map String.toList))
        :: (first :: rest).map (fun row => joinChars [',']
          ((first.map Prod.fst).map
            (fun h => (encodeCell ((row.lookup h).getD "")).toList)))
      = (joinChars [',']
          ((first.map Prod.fst).map (fun v => (encodeCell v).toList)))
        :: (first :: rest).map (fun row => joinChars [',']
          ((row.map Prod.snd).map (fun v => (encodeCell v).toList))) := by
    rw [hheadenc]
    congr 1
    apply List.map_congr_left
    intro row hrow
    rw [hrowline row hrow]
  rw [hlines]
  have hlinegood : ∀ x ∈ (joinChars [',']
        ((first.map Prod.fst).map (fun v => (encodeCell v).toList)))
        :: (first :: rest).map (fun row => joinChars [',']
          ((row.map Prod.snd).map (fun v => (encodeCell v).toList))),
      '\n' ∉ x ∧ '\r' ∉ x := by
    intro x hx
    rcases List.mem_cons.mp hx with hx | hx
    · subst hx
      exact line_no_break _ hheadcell
    · obtain ⟨row, hrowm, rfl⟩ := List.mem_map.mp hx
      exact line_no_break _ (hrows row hrowm).2
  have htrimid : jsTrimChars (joinChars ['\n']
      ((joinChars [','] ((first.map Prod.fst).map (fun v => (encodeCell v).toList)))
        :: (first :: rest).map (fun row => joinChars [',']
          ((row.map Prod.snd).map (fun v => (encodeCell v).toList)))))
      = joinChars ['\n']
        ((joinChars [','] ((first.map Prod.fst).map (fun v => (encodeCell v).toList)))
          :: (first :: rest).map (fun row => joinChars [',']
            ((row.map Prod.snd).map (fun v => (encodeCell v).toList)))) := by
    apply jsTrimChars_eq_self
    · intro c hc
      rw [head?_joinChars ['\n'] _ _
        (encLine_ne_nil (first.map Prod.fst) hne0 hheadcell)] at hc
      obtain ⟨h0, hs', hfirsteq⟩ := List.exists_cons_of_ne_nil hne0
      rw [hfirsteq, List.map_cons] at hc
      have hg0 : goodCell h0 = true := hheadcell h0 (by rw [hfirsteq]; simp)
      rw [head?_joinChars [','] _ _
        (encodeCell_toList_ne_nil h0 (goodCell_spec h0 hg0).1)] at hc
      rw [encodeCell_eq_self h0
        (goodHeader_spec h0 (hhead h0 (by rw [hfirsteq]; simp))).2.1
        (goodHeader_spec h0 (hhead h0 (by rw [hfirsteq]; simp))).2.2
        (goodCell_spec h0 hg0).2.1] at hc
      exact trimInv_head h0.toList (goodCell_spec h0 hg0).2.2.2 c hc
    · intro c hc
      have hallne : ∀ x ∈ (joinChars [',']
          ((first.map Prod.fst).map (fun v => (encodeCell v).toList)))
          :: (first :: rest).map (fun row => joinChars [',']
            ((row.map Prod.snd).map (fun v => (encodeCell v).toList))), x ≠ [] := by
        intro x hx
        rcases List.mem_cons.mp hx with hx | hx
        · subst hx
          exact encLine_ne_nil (first.map Prod.fst) hne0 hheadcell
        · obtain ⟨row, hrowm, rfl⟩ := List.mem_map.mp hx
          exact encLine_ne_nil (row.map Prod.snd) (hrowcells row hrowm)
            (hrows row hrowm).2
      obtain ⟨x, hx, he⟩ := getLast?_joinChars ['\n'] _ _ hallne
      rw [he] at hc
      rcases List.mem_cons.mp hx with hx | hx
      · subst hx
        exact encLine_getLast (first.map Prod.fst) hne0 hheadcell c hc
      · obtain ⟨row, hrowm, rfl⟩ := List.mem_map.mp hx
        exact encLine_getLast (row.map Prod.snd) (hrowcells row hrowm)
          (hrows row hrowm).2 c hc
  unfold parseCSV
  rw [show (String.mk (joinChars ['\n']
      ((joinChars [','] ((first.map Prod.fst).map (fun v => (encodeCell v).toList)))
        :: (first :: rest).map (fun row => joinChars [',']
          ((row.map Prod.snd).map (fun v => (encodeCell v).toList)))))).toList
      = joinChars ['\n']
        ((joinChars [','] ((first.map Prod.fst).map (fun v => (encodeCell v).toList)))
          :: (first :: rest).map (fun row => joinChars [',']
            ((row.map Prod.snd).map (fun v => (encodeCell v).toList))))
    from rfl]
  rw [htrimid, splitLinesAux_join _ _ hlinegood]
  simp only [parseCSVLine_joined (first.map Prod.fst) hne0 hheadcell]
  rw [List.filterMap_map]
  apply filterMap_id_of_some
  intro row hrow
  simp only [Function.comp]
  rw [parseCSVLine_joined (row.map Prod.snd) (hrowcells row hrow)
    (hrows row hrow).2]
  have hlen : (row.map Prod.snd).length = (first.map Prod.fst).length := by
    have := congrArg List.length (hrows row hrow).1
    simp only [List.length_map] at this ⊢
    exact this
  rw [if_pos hlen]
  congr 1
  rw [← (hrows row hrow).1]
  exact Eq.symm (List.zip_of_prod rfl rfl)

/-- Counterexample to claim C6 as stated: a single-row result whose cell value
contains a newline exports (quoted) to text that the parser splits on the
embedded newline before processing quotes, yielding two rows instead of one —
the round trip does not preserve the row count. -/
theorem c6_counterexample :
    ([[("a", "x\ny")]] : List CsvRow).length = 1 ∧
    (parseCSV ((exportToCSV ([[("a", "x\ny")]] : List CsvRow)).getD "")).length
      = 2 := by
  constructor
  · rfl
  · simp [parseCSV, exportToCSV, splitLinesAux, parseCSVLineAux, jsTrimChars,
      joinChars, encodeCell, escQ, isWS]

/-- Witness for C6 at a two-row result whose cells exercise the comma and
quote quoting rules. -/
theorem c6_roundtrip_witness :
    (rowC6a ≠ [] ∧ (rowC6a.map Prod.fst).Nodup ∧
      (∀ h ∈ rowC6a.map Prod.fst, goodHeader h = true) ∧
      (∀ row ∈ rowC6a :: [rowC6b], row.map Prod.fst = rowC6a.map Prod.fst ∧
        ∀ v ∈ row.map Prod.snd, goodCell v = true)) ∧
    parseCSV ((exportToCSV (rowC6a :: [rowC6b])).getD "")
      = rowC6a :: [rowC6b] :=
  ⟨⟨by decide, by decide, by decide, by decide⟩,
    c6_roundtrip rowC6a [rowC6b] (by decide) (by decide) (by decide) (by decide)⟩

end SQLViewer
